import Mathlib

/-!
Verification of the HSSP multiple-sequence-alignment pipeline (xssp repository,
hmmer-hssp translation unit and hh-hssp.cpp).

Numeric conventions of the embedding: the C++ `float`/`double` arithmetic on
identity scores, thresholds and conservation values is modelled over `ℚ`; the
decimal literals of the source tables are exact rationals.  Machine `uint32`
counters never overflow on realistic alignments and are modelled as `ℕ`.
Sequences are modelled as `List Char` (one entry per byte of the C++ string).
-/

namespace Xssp

/-- Gap test from `is_gap` in hmmer-hssp: a residue char is a gap iff it is
one of `-`, `~`, `.`, `_`. -/
def isGap (c : Char) : Bool :=
  c = '-' || c = '~' || c = '.' || c = '_'

/-- The 71-entry precalculated homology threshold table `kHomologyThreshold`
for compared-column counts between 10 and 80 (hmmer-hssp). -/
def kHomologyThreshold : List ℚ := [
  0.845468, 0.80398,  0.767997, 0.736414, 0.708413, 0.683373, 0.660811, 0.640351, 0.621688, 0.604579,
  0.58882,  0.574246, 0.560718, 0.548117, 0.536344, 0.525314, 0.514951, 0.505194, 0.495984, 0.487275,
  0.479023, 0.471189, 0.463741, 0.456647, 0.449882, 0.44342,  0.43724,  0.431323, 0.425651, 0.420207,
  0.414976, 0.409947, 0.405105, 0.40044,  0.395941, 0.391599, 0.387406, 0.383352, 0.379431, 0.375636,
  0.37196,  0.368396, 0.364941, 0.361587, 0.358331, 0.355168, 0.352093, 0.349103, 0.346194, 0.343362,
  0.340604, 0.337917, 0.335298, 0.332744, 0.330252, 0.327821, 0.325448, 0.323129, 0.320865, 0.318652,
  0.316488, 0.314372, 0.312302, 0.310277, 0.308294, 0.306353, 0.304452, 0.302589, 0.300764, 0.298975,
  0.297221]

/-- The `seq` record of hmmer-hssp: an id, the aligned residue string, and the
running identity statistics `m_identical` / `m_length` kept against the query. -/
structure Seq where
  id : List Char
  seq : List Char
  identical : Nat
  length : Nat
deriving DecidableEq, Repr

instance : Inhabited Seq := ⟨⟨[], [], 0, 0⟩⟩

/-- Fresh sequence entry, as the `seq(id)` constructor. -/
def mkSeq (id : List Char) : Seq := ⟨id, [], 0, 0⟩

/-- Identity score of a hit sequence against the query,
`float(m_identical) / float(m_length)`. -/
def seqScore (s : Seq) : ℚ := (s.identical : ℚ) / (s.length : ℚ)

/-- Threshold-table index `max(10U, min(m_length, 80U)) - 10` used by the
homology filter. -/
def thresholdIndex (len : Nat) : Nat := max 10 (min len 80) - 10

/-- Drop decision of the homology filter in `ReadStockholm`: the sequence is
erased iff `score < kHomologyThreshold[ix]`.  When `m_length = 0` the C++
division `0.0f/0.0f` yields NaN and the `<` comparison is false, so the
sequence is kept; the `s.length != 0` guard models that IEEE behaviour. -/
def dropSeq (s : Seq) : Bool :=
  s.length != 0 && decide (seqScore s < kHomologyThreshold.getD (thresholdIndex s.length) 0)

/-- The erase loop at the end of `ReadStockholm`: every non-query sequence
whose score is below its threshold is removed; the query (front) is kept. -/
def homologyFilter : List Seq → List Seq
  | [] => []
  | q :: hits => q :: hits.filter (fun s => !dropSeq s)

/-- Character class used by `boost::algorithm::trim`: the C locale
whitespace characters. -/
def isSpaceChar (c : Char) : Bool :=
  c = ' ' || (9 ≤ c.toNat && c.toNat ≤ 13)

/-- Trim whitespace from both ends of a byte string (`ba::trim`). -/
def trimChars (l : List Char) : List Char :=
  ((l.dropWhile isSpaceChar).reverse.dropWhile isSpaceChar).reverse

/-- First position at which `pat` occurs as a substring of `l`
(`std::string::find`), `none` when it does not occur. -/
def findSub (pat : List Char) : List Char → Option Nat
  | [] => if pat.isPrefixOf ([] : List Char) then some 0 else none
  | c :: t => if pat.isPrefixOf (c :: t) then some 0 else (findSub pat t).map (· + 1)

/-- Test whether `l` is `-i` followed by one or more digits, the tail matched
by the query-id regex `(.+?)-i(?:\d+)$` of `ReadStockholm`. -/
def matchesISuffix : List Char → Bool
  | '-' :: 'i' :: ds => !ds.isEmpty && ds.all Char.isDigit
  | _ => false

/-- Backtracking scan of the lazy group `(.+?)`: the shortest nonempty
prefix whose remainder matches `-i(?:\d+)$`. -/
def stripIGo (acc : List Char) : List Char → Option (List Char)
  | [] => none
  | c :: t => if matchesISuffix t then some (acc ++ [c]) else stripIGo (acc ++ [c]) t

/-- Strip a jackhmmer iteration suffix `-i<digits>` from the query id, as the
regex match `(.+?)-i(?:\d+)$` in `ReadStockholm`; ids without the suffix are
returned unchanged. -/
def stripIdSuffix (l : List Char) : List Char :=
  (stripIGo [] l).getD l

/-- Split a Stockholm data line at its first space: the id is everything
before the first space, then all consecutive spaces are skipped and the rest
is the residue string.  `none` when the line contains no space (the
`Invalid stockholm file` error). -/
def splitAtSpace (l : List Char) : Option (List Char × List Char) :=
  if l.contains ' ' then
    some (l.takeWhile (· ≠ ' '), (l.dropWhile (· ≠ ' ')).dropWhile (· = ' '))
  else none

/-- Id of a `#=GS` line: drop the `#=GS ` marker, cut before a `DE ` marker
when present, and trim whitespace. -/
def gsId (line : List Char) : List Char :=
  let id := line.drop 5
  trimChars (match findSub ['D', 'E', ' '] id with
    | some k => id.take k
    | none => id)

/-- In-place update of the sequence at index `i` (vector element access). -/
def modifyAt : List Seq → Nat → (Seq → Seq) → List Seq
  | [], _, _ => []
  | x :: t, 0, f => f x :: t
  | x :: t, i + 1, f => x :: modifyAt t i f

/-- Per-block identity statistics of `ReadStockholm`: positions where the
query residue is non-gap and equal to the hit residue. -/
def countIdentical (qseq lseq : List Char) : Nat :=
  (qseq.zip lseq).countP (fun p => !isGap p.1 && p.1 = p.2)

/-- Per-block compared-column count of `ReadStockholm`: positions where the
query residue or the hit residue is non-gap. -/
def countCompared (qseq lseq : List Char) : Nat :=
  (qseq.zip lseq).countP (fun p => !isGap p.1 || !isGap p.2)

/-- The fixed marker line of a Stockholm file. -/
def stockholmMarker : List Char := "# STOCKHOLM 1.0".toList

/-- The required start of the second line. -/
def gfIdMark : List Char := "#=GF ID ".toList

/-- The `#=GS ` marker. -/
def gsMark : List Char := "#=GS ".toList

/-- Main line loop of `ReadStockholm` over the remaining input lines, with
the collected alignment `msa`, the current hit index `ix` and the current
query block `qseq`.  The Boolean result records whether a data line without a
space separator was hit (the loop throws there; parsing of later lines is
irrelevant in that case and is skipped). -/
def stoLoop : List (List Char) → List Seq → Nat → List Char → Bool × List Seq
  | [], msa, _, _ => (false, msa)
  | line :: rest, msa, ix, qseq =>
    if line = [] then stoLoop rest msa ix qseq
    else if line = ['/', '/'] then (false, msa)
    else if gsMark.isPrefixOf line then
      let gid := gsId line
      let msa' := if msa.length > 1 || ((msa.head?.map Seq.id).getD [] ≠ gid)
                  then msa ++ [mkSeq gid] else msa
      stoLoop rest msa' ix qseq
    else if line.head? ≠ some '#' then
      match splitAtSpace line with
      | none => (true, msa)
      | some (lid, lseq) =>
        if lid = (msa.head?.map Seq.id).getD [] then
          stoLoop rest (modifyAt msa 0 (fun s => { s with seq := s.seq ++ lseq })) 0 lseq
        else
          let ix' := ix + 1
          let msa' := if msa.length ≤ ix' then msa ++ [mkSeq lid] else msa
          let msa'' := modifyAt msa' ix' (fun s =>
            { s with seq := s.seq ++ lseq,
                     identical := s.identical + countIdentical qseq lseq,
                     length := s.length + countCompared qseq lseq })
          stoLoop rest msa'' ix' qseq
    else stoLoop rest msa ix qseq

/-- State of the loop of `ReadStockholm` at its end: the no-space failure
flag and the collected alignment, the latter seeded with the query id of the
`#=GF ID` line (iteration suffix stripped). -/
def parsedMSA (lines : List (List Char)) : Bool × List Seq :=
  stoLoop (lines.drop 2)
    [mkSeq (stripIdSuffix (((lines.drop 1).head?.getD []).drop 8))] 0 []

/-- The whole of `ReadStockholm` over the input lines: marker line, `#=GF ID`
line with iteration-suffix stripping, the block loop, the minimum-sequence
check, and the homology filter. -/
def readStockholm (lines : List (List Char)) : Except (List Char) (List Seq) :=
  if (lines.head?.getD []) ≠ stockholmMarker then
    .error "Not a stockholm file".toList
  else if !(gfIdMark.isPrefixOf ((lines.drop 1).head?.getD [])) then
    .error "Not a valid stockholm file, missing GF ID line".toList
  else if (parsedMSA lines).1 then
    .error "Invalid stockholm file".toList
  else if (parsedMSA lines).2.length < 2 then
    .error "Insufficient sequences in Stockholm MSA".toList
  else .ok (homologyFilter (parsedMSA lines).2)

/-- Success test for an `Except` result. -/
def exceptOk {ε α : Type} : Except ε α → Bool
  | .ok _ => true
  | .error _ => false

instance {ε α : Type} [DecidableEq ε] [DecidableEq α] : DecidableEq (Except ε α)
  | .error e, .error f =>
    if h : e = f then .isTrue (h ▸ rfl) else .isFalse (fun hc => h (Except.error.inj hc))
  | .error _, .ok _ => .isFalse (fun hc => Except.noConfusion hc)
  | .ok _, .error _ => .isFalse (fun hc => Except.noConfusion hc)
  | .ok a, .ok b =>
    if h : a = b then .isTrue (h ▸ rfl) else .isFalse (fun hc => h (Except.ok.inj hc))

/-- Claim-side condition C6(iii): a processed line (before the terminating
`//`) that is nonempty, is not a comment, and contains no space separator. -/
def isDataNoSpace (l : List Char) : Bool :=
  !l.isEmpty && l.head? ≠ some '#' && !l.contains ' '

/-- Claim-side view of the lines the loop of `ReadStockholm` processes: the
body lines up to the terminating `//`. -/
def bodyLines (lines : List (List Char)) : List (List Char) :=
  (lines.drop 2).takeWhile (· ≠ ['/', '/'])

/-- Claim-side sequence count after parsing the blocks: the alignment the
loop has collected when it terminates normally. -/
def parsedSeqCount (lines : List (List Char)) : Nat :=
  (parsedMSA lines).2.length

/-- Stockholm input whose single hit scores 0 identity over 10 compared
columns, below threshold entry 0: the homology filter removes it. -/
def stoExampleAllDropped : List (List Char) :=
  ["# STOCKHOLM 1.0".toList, "#=GF ID Q1".toList,
   "Q1 AAAAAAAAAA".toList, "H1/1-10 CCCCCCCCCC".toList, "//".toList]

/-- Stockholm input containing only the query and no hits. -/
def stoExampleQueryOnly : List (List Char) :=
  ["# STOCKHOLM 1.0".toList, "#=GF ID Q1".toList, "Q1 AAAA".toList, "//".toList]

/-- Character class `[-a-zA-Z0-9_]` of the hit-id regex. -/
def isIdChar (c : Char) : Bool :=
  c = '-' || c = '_' || c.isAlpha || c.isDigit

/-- Value of a decimal digit string (`boost::lexical_cast<uint32>`, overflow
disregarded). -/
def natOfDigits (l : List Char) : Nat :=
  l.foldl (fun a c => 10 * a + (c.toNat - 48)) 0

/-- Parse of the hit id against the regex `([-a-zA-Z0-9_]+)/(\d+)-(\d+)`
(`Hit::Hit`): the id part, `jfir` and `jlas`; `none` when the id does not
match (the `Alignment ID should contain position` error). -/
def parseHitId (id : List Char) : Option (List Char × Nat × Nat) :=
  let p1 := id.takeWhile (· ≠ '/')
  match id.dropWhile (· ≠ '/') with
  | '/' :: rest =>
    let d1 := rest.takeWhile (· ≠ '-')
    (match rest.dropWhile (· ≠ '-') with
     | '-' :: d2 =>
       if !p1.isEmpty && p1.all isIdChar && !d1.isEmpty && d1.all Char.isDigit
          && !d2.isEmpty && d2.all Char.isDigit
       then some (p1, natOfDigits d1, natOfDigits d2) else none
     | _ => none)
  | _ => none

/-- The statistics part of the `Hit` record of hmmer-hssp.  The metadata
fields filled in later by `ChainToHits` (`acc`, `desc`, `pdb`, `lseq2`) and
the insertion list are not tracked: no claim refers to them. -/
structure Hit where
  id : List Char
  nr : Nat
  ifir : Nat
  ilas : Nat
  jfir : Nat
  jlas : Nat
  lali : Nat
  ngap : Nat
  lgap : Nat
  identical : Nat
  similar : Nat
  ide : ℚ
  wsim : ℚ
deriving DecidableEq, Repr

/-- Mutable state of the column-classification loop of `Hit::Hit`. -/
structure WalkSt where
  sgap : Bool
  qgap : Bool
  ngap : Nat
  lgap : Nat
  ident : Nat
  sim : Nat
  lali : Nat
  ilas : Nat
deriving DecidableEq, Repr

/-- One step of the column loop of `Hit::Hit` on a `(query, hit)` column
pair: common gaps shrink `lali`; hit gaps open/extend a deletion run; query
gaps open/extend an insertion run; matches update `identical`/`similar`
(`simPred` is the positivity test of the BLOSUM62 substitution matrix, kept
abstract).  The in-place lower-casing of insertion runs and the insertion
records do not affect these statistics and are not tracked. -/
def walkStep (simPred : Char → Char → Bool) (st : WalkSt) (p : Char × Char) : WalkSt :=
  if isGap p.2 && isGap p.1 then
    { st with lali := st.lali - 1 }
  else if isGap p.2 then
    { st with ngap := if !(st.sgap || st.qgap) then st.ngap + 1 else st.ngap,
              sgap := true, ilas := st.ilas + 1, lgap := st.lgap + 1 }
  else if isGap p.1 then
    { st with ngap := if !(st.sgap || st.qgap) then st.ngap + 1 else st.ngap,
              qgap := true, lgap := st.lgap + 1 }
  else
    { st with sgap := false, qgap := false,
              ident := if p.1 = p.2 then st.ident + 1 else st.ident,
              sim := if p.1 = p.2 then st.sim + 1
                     else if simPred p.1 p.2 then st.sim + 1 else st.sim,
              ilas := st.ilas + 1 }

/-- The full column loop. -/
def walk (simPred : Char → Char → Bool) (l : List (Char × Char)) (st : WalkSt) : WalkSt :=
  l.foldl (walkStep simPred) st

/-- Number of leading alignment columns at which the hit is gapped; they are
blanked out and skipped by the first trim loop of `Hit::Hit`. -/
def hitTrimLead (s : List Char) : Nat := (s.takeWhile isGap).length

/-- Number of trailing alignment columns (after the leading trim) at which
the hit is gapped; blanked out by the second trim loop. -/
def hitTrimTail (s : List Char) : Nat :=
  ((s.drop (hitTrimLead s)).reverse.takeWhile isGap).length

/-- The `(query, hit)` column pairs remaining between the two trims: the
range the column loop of `Hit::Hit` walks. -/
def trimmedCols (q s : List Char) : List (Char × Char) :=
  let f := hitTrimLead s
  let rest := s.drop f
  let b := (rest.reverse.takeWhile isGap).length
  ((q.drop f).take (rest.length - b)).zip (rest.take (rest.length - b))

/-- Length of the trimmed alignment: the columns left after removing the
boundary columns at which the hit is gapped. -/
def trimmedLength (s : List Char) : Nat :=
  s.length - hitTrimLead s - hitTrimTail s

/-- A common-gap column: both the query and the hit are gapped. -/
def colCommon (p : Char × Char) : Bool := isGap p.1 && isGap p.2

/-- A match column contributing to `identical`: neither residue is a gap and
they are equal. -/
def colIdent (p : Char × Char) : Bool :=
  (!isGap p.1 && !isGap p.2) && p.1 = p.2

/-- A match column contributing to `similar`: neither residue is a gap and
they are equal or similar under the substitution matrix. -/
def colSim (sp : Char → Char → Bool) (p : Char × Char) : Bool :=
  (!isGap p.1 && !isGap p.2) && (p.1 = p.2 || sp p.1 p.2)

/-- Number of common-gap columns (both query and hit gapped) in the trimmed
range. -/
def commonGapCols (q s : List Char) : Nat :=
  (trimmedCols q s).countP colCommon

/-- The `Hit::Hit` constructor on the aligned query `q`, aligned hit `s` and
hit id `sid`: `none` on the throw paths (empty sequence, query boundary gap,
unparsable id), otherwise the hit statistics.  `lali` starts at the full
alignment length `s.length` and is decremented only for common-gap columns
of the trimmed range. -/
def mkHit (simPred : Char → Char → Bool) (q s sid : List Char) : Option Hit :=
  if q = [] || s = [] then none
  else if isGap (q.headD ' ') || isGap (q.getLastD ' ') then none
  else match parseHitId sid with
  | none => none
  | some (hid, jf, jl) =>
    let f := hitTrimLead s
    let st := walk simPred (trimmedCols q s)
      ⟨false, false, 0, 0, 0, 0, s.length, f⟩
    some { id := hid, nr := 0, ifir := 1 + f, ilas := st.ilas,
           jfir := jf, jlas := jl, lali := st.lali, ngap := st.ngap,
           lgap := st.lgap, identical := st.ident, similar := st.sim,
           ide := (st.ident : ℚ) / (st.lali : ℚ),
           wsim := (st.sim : ℚ) / (st.lali : ℚ) }

/-- `Hit::operator<` of hmmer-hssp: greater identity first, ties broken by
greater `lali`. -/
def hitLt (a b : Hit) : Bool :=
  decide (b.ide < a.ide) || (decide (a.ide = b.ide) && decide (b.lali < a.lali))

/-- The non-strict counterpart: `a` may stay before `b` in a sequence sorted
with `hitLt` iff `¬ hitLt b a`. -/
def hitLE (a b : Hit) : Bool := !(hitLt b a)

/-- The `sort(hits.begin(), hits.end(), compare_hit())` call of the hmmer
`CreateHSSP` variants, modelled as a stable merge sort with the induced
non-strict comparison. -/
def sortHits (l : List Hit) : List Hit := l.mergeSort hitLE

/-- The rank-assignment loop `nr = 1; foreach h: h->nr = nr++`. -/
def assignRanks : Nat → List Hit → List Hit
  | _, [] => []
  | n, h :: t => { h with nr := n } :: assignRanks (n + 1) t

/-- Hit post-processing of the three hmmer `CreateHSSP` variants: sort,
truncate to at most 9999 hits, then assign ranks from 1. -/
def postProcessHits (l : List Hit) : List Hit :=
  assignRanks 1 ((sortHits l).take 9999)

/-- Claim-side ordering relation: descending `ide`, ties broken by
descending `lali`. -/
def hitDescOrder (a b : Hit) : Prop :=
  b.ide < a.ide ∨ (a.ide = b.ide ∧ b.lali ≤ a.lali)

/-- `hit::operator<` of hh-hssp.cpp: greater identity first, no tie-break. -/
def hhHitLt (a b : Hit) : Bool := decide (b.ide < a.ide)

/-- Its induced non-strict comparison. -/
def hhHitLE (a b : Hit) : Bool := !(hhHitLt b a)

/-- Hit post-processing of the hh-hssp.cpp `CreateHSSP`: sort and assign
ranks from 1 — with no truncation. -/
def hhPostProcess (l : List Hit) : List Hit :=
  assignRanks 1 (l.mergeSort hhHitLE)

/-- A hit record with all statistics zero, for concrete instantiations. -/
def blankHit : Hit := ⟨[], 0, 0, 0, 0, 0, 0, 0, 0, 0, 0, 0, 0⟩

/-- Gap-stripped residue string: the reconstruction `sa` built by
`CheckAlignmentForChain` from the query row. -/
def stripGaps (l : List Char) : List Char := l.filter (fun c => !isGap c)

/-- The query row of an alignment (its first sequence). -/
def queryRow (msa : List (List Char)) : List Char := msa.head?.getD []

/-- The number `n` of trailing columns erased by `CheckAlignmentForChain`:
`sa.length - (sc.length + offset)`. -/
def chainTailTrim (sa sc : List Char) (k : Nat) : Nat := sa.length - (sc.length + k)

/-- `CheckAlignmentForChain` on the sequence rows of an alignment and a
reference chain sequence `sc`: when the gap-stripped query `sa` differs from
`sc` it throws if `sa` is shorter than `sc` or `sc` is not a substring of
`sa`; otherwise it erases the first `offset` alignment columns of every row
(when `offset > 0`) and then the last `n` columns of every row (when
`sa.length > sc.length + offset`). -/
def checkAlignmentForChain (msa : List (List Char)) (sc : List Char) :
    Except (List Char) (List (List Char)) :=
  if stripGaps (queryRow msa) = sc then .ok msa
  else if (stripGaps (queryRow msa)).length < sc.length then
    .error "Query used for Stockholm file is too short for the chain".toList
  else match findSub sc (stripGaps (queryRow msa)) with
    | none => .error "Invalid Stockholm file for chain".toList
    | some offset =>
      .ok (if (stripGaps (queryRow msa)).length > sc.length + offset then
            (if offset > 0 then msa.map (fun s => s.drop offset) else msa).map
              (fun s => s.take (s.length - chainTailTrim (stripGaps (queryRow msa)) sc offset))
          else if offset > 0 then msa.map (fun s => s.drop offset) else msa)

/-- The 256-entry byte-to-amino-acid-index table `ResidueHInfo::kIX`:
canonical amino-acid letters (upper or lower case) map to their index in the
order `VLIMFWYGAPSTCHRKQEND`, everything else to `-1`. -/
def kIXTable : List Int := [
  -1, -1, -1, -1, -1, -1, -1, -1, -1, -1, -1, -1, -1, -1, -1, -1,
  -1, -1, -1, -1, -1, -1, -1, -1, -1, -1, -1, -1, -1, -1, -1, -1,
  -1, -1, -1, -1, -1, -1, -1, -1, -1, -1, -1, -1, -1, -1, -1, -1,
  -1, -1, -1, -1, -1, -1, -1, -1, -1, -1, -1, -1, -1, -1, -1, -1,
  -1,  8, -1, 12, 19, 17,  4,  7, 13,  2, -1, 15,  1,  3, 18, -1,
   9, 16, 14, 10, 11, -1,  0,  5, -1,  6, -1, -1, -1, -1, -1, -1,
  -1,  8, -1, 12, 19, 17,  4,  7, 13,  2, -1, 15,  1,  3, 18, -1,
   9, 16, 14, 10, 11, -1,  0,  5, -1,  6, -1, -1, -1, -1, -1, -1,
  -1, -1, -1, -1, -1, -1, -1, -1, -1, -1, -1, -1, -1, -1, -1, -1,
  -1, -1, -1, -1, -1, -1, -1, -1, -1, -1, -1, -1, -1, -1, -1, -1,
  -1, -1, -1, -1, -1, -1, -1, -1, -1, -1, -1, -1, -1, -1, -1, -1,
  -1, -1, -1, -1, -1, -1, -1, -1, -1, -1, -1, -1, -1, -1, -1, -1,
  -1, -1, -1, -1, -1, -1, -1, -1, -1, -1, -1, -1, -1, -1, -1, -1,
  -1, -1, -1, -1, -1, -1, -1, -1, -1, -1, -1, -1, -1, -1, -1, -1,
  -1, -1, -1, -1, -1, -1, -1, -1, -1, -1, -1, -1, -1, -1, -1, -1,
  -1, -1, -1, -1, -1, -1, -1, -1, -1, -1, -1, -1, -1, -1, -1, -1]

/-- Table lookup by byte value. -/
def kIXB (b : Nat) : Int := kIXTable.getD b (-1)

/-- `kIX[uint8(c)]`: the byte value of the character indexes the table. -/
def kIX (c : Char) : Int := kIXB (c.toNat % 256)

/-- The packed lower-triangular Dayhoff similarity data `kDayhoffData`
(210 entries, row `k` holding `k + 1` entries). -/
def kDayhoffData : List ℚ := [
  1.5,
  0.8, 1.5,
  1.1, 0.8, 1.5,
  0.6, 1.3, 0.6, 1.5,
  0.2, 1.2, 0.7, 0.5, 1.5,
  -0.8, 0.5, -0.5, -0.3, 1.3, 1.5,
  -0.1, 0.3, 0.1, -0.1, 1.4, 1.1, 1.5,
  0.2, -0.5, -0.3, -0.3, -0.6, -1.0, -0.7, 1.5,
  0.2, -0.1, 0.0, 0.0, -0.5, -0.8, -0.3, 0.7, 1.5,
  0.1, -0.3, -0.2, -0.2, -0.7, -0.8, -0.8, 0.3, 0.5, 1.5,
  -0.1, -0.4, -0.1, -0.3, -0.3, 0.3, -0.4, 0.6, 0.4, 0.4, 1.5,
  0.2, -0.1, 0.2, 0.0, -0.3, -0.6, -0.3, 0.4, 0.4, 0.3, 0.3, 1.5,
  0.2, -0.8, 0.2, -0.6, -0.1, -1.2, 1.0, 0.2, 0.3, 0.1, 0.7, 0.2, 1.5,
  -0.3, -0.2, -0.3, -0.3, -0.1, -0.1, 0.3, -0.2, -0.1, 0.2, -0.2, -0.1, -0.1, 1.5,
  -0.3, -0.4, -0.3, 0.2, -0.5, 1.4, -0.6, -0.3, -0.3, 0.3, 0.1, -0.1, -0.3, 0.5, 1.5,
  -0.2, -0.3, -0.2, 0.2, -0.7, 0.1, -0.6, -0.1, 0.0, 0.1, 0.2, 0.2, -0.6, 0.1, 0.8, 1.5,
  -0.2, -0.1, -0.3, 0.0, -0.8, -0.5, -0.6, 0.2, 0.2, 0.3, -0.1, -0.1, -0.6, 0.7, 0.4, 0.4, 1.5,
  -0.2, -0.3, -0.2, -0.2, -0.7, -1.1, -0.5, 0.5, 0.3, 0.1, 0.2, 0.2, -0.6, 0.4, 0.0, 0.3, 0.7, 1.5,
  -0.3, -0.4, -0.3, -0.3, -0.5, -0.3, -0.1, 0.4, 0.2, 0.0, 0.3, 0.2, -0.3, 0.5, 0.1, 0.4, 0.4, 0.5, 1.5,
  -0.2, -0.5, -0.2, -0.4, -1.0, -1.1, -0.5, 0.7, 0.3, 0.1, 0.2, 0.2, -0.5, 0.4, 0.0, 0.3, 0.7, 1.0, 0.7, 1.5]

/-- The symmetric Dayhoff matrix `D`: packed lower-triangular access
`D(i, j) = data[max(i,j)·(max(i,j)+1)/2 + min(i,j)]` as done by the
`symmetric_matrix` wrapper. -/
def dayhoff (i j : Nat) : ℚ :=
  kDayhoffData.getD ((max i j) * (max i j + 1) / 2 + min i j) 0

/-- Residue of sequence `i` at alignment column `r` (`msa[i].m_seq[r]`;
out-of-range access is undefined in the C++ and modelled as a blank, a
non-canonical byte). -/
def seqCharAt (msa : List Seq) (i r : Nat) : Char :=
  ((msa.getD i default).seq.getD r ' ')

/-- The accumulation loops of `CalculateConservation`: for every pair
`i < j` of sequences whose residues at column `r` are both canonical,
add `w(i,j)·D(ri,rj)` to the conservation sum and `w(i,j)·1.5` to the
weight sum (non-canonical residues are skipped by `continue`). -/
def conservationSums (msa : List Seq) (r : Nat) (w : Nat → Nat → ℚ) : ℚ × ℚ :=
  (List.range (msa.length - 1)).foldl (fun acc i =>
    if kIX (seqCharAt msa i r) = -1 then acc
    else (List.range' (i + 1) (msa.length - (i + 1))).foldl (fun acc2 j =>
      if kIX (seqCharAt msa j r) = -1 then acc2
      else (acc2.1 + w i j * dayhoff (kIX (seqCharAt msa i r)).toNat
              (kIX (seqCharAt msa j r)).toNat,
            acc2.2 + w i j * 1.5)) acc)
    (0, 0)

/-- `CalculateConservation`: the ratio of the two sums, defaulting to `1.0`
when the weight sum is zero. -/
def calculateConservation (msa : List Seq) (r : Nat) (w : Nat → Nat → ℚ) : ℚ :=
  if (conservationSums msa r w).2 = 0 then 1
  else (conservationSums msa r w).1 / (conservationSums msa r w).2

/-- Claim-side numerator `Σ_{i<j} w(i,j)·D(aa_i, aa_j)` over exactly the
pairs whose residues at column `r` are both canonical. -/
def conservationSpecNum (msa : List Seq) (r : Nat) (w : Nat → Nat → ℚ) : ℚ :=
  ((List.range msa.length).map (fun i =>
    (((List.range msa.length).filter (fun j => i < j)).map (fun j =>
      if kIX (seqCharAt msa i r) ≠ -1 ∧ kIX (seqCharAt msa j r) ≠ -1
      then w i j * dayhoff (kIX (seqCharAt msa i r)).toNat (kIX (seqCharAt msa j r)).toNat
      else 0)).sum)).sum

/-- Claim-side denominator `Σ_{i<j} w(i,j)·1.5` over the same pairs. -/
def conservationSpecDen (msa : List Seq) (r : Nat) (w : Nat → Nat → ℚ) : ℚ :=
  ((List.range msa.length).map (fun i =>
    (((List.range msa.length).filter (fun j => i < j)).map (fun j =>
      if kIX (seqCharAt msa i r) ≠ -1 ∧ kIX (seqCharAt msa j r) ≠ -1
      then w i j * 1.5 else 0)).sum)).sum

/-- Claim-side conservation score: the ratio, defaulting to `1.0` on zero
weight. -/
def conservationSpec (msa : List Seq) (r : Nat) (w : Nat → Nat → ℚ) : ℚ :=
  if conservationSpecDen msa r w = 0 then 1
  else conservationSpecNum msa r w / conservationSpecDen msa r w

/-- The gap-adjacency flag of the `ResidueHInfo` constructor: the next query
column exists and is a gap (`pos + 1 < q.length() and is_gap(q[pos + 1])`). -/
def resGapNext (msa : List Seq) (pos : Nat) : Bool :=
  decide (pos + 1 < (msa.headD default).seq.length) &&
    isGap ((msa.headD default).seq.getD (pos + 1) ' ')

/-- `ndel` of a residue profile: the number of covering hits (given by their
alignment indices) whose aligned character at `pos` is a gap. -/
def resNdel (msa : List Seq) (hitIxs : List Nat) (pos : Nat) : Nat :=
  hitIxs.countP (fun ix => isGap (seqCharAt msa ix pos))

/-- `nins` of a residue profile: the number of covering hits whose aligned
character at `pos` lies in `'a'..'y'`, counted only when the next query
column is a gap. -/
def resNins (msa : List Seq) (hitIxs : List Nat) (pos : Nat) : Nat :=
  hitIxs.countP (fun ix => resGapNext msa pos &&
    (decide ('a' ≤ seqCharAt msa ix pos) && decide (seqCharAt msa ix pos ≤ 'y')))

/-- Claim-side `nins` reading: a lowercase letter (`'a'..'z'`) as the
insertion marker. -/
def resNinsLowercase (msa : List Seq) (hitIxs : List Nat) (pos : Nat) : Nat :=
  hitIxs.countP (fun ix => resGapNext msa pos &&
    (decide ('a' ≤ seqCharAt msa ix pos) && decide (seqCharAt msa ix pos ≤ 'z')))

/-- `nocc` of a residue profile for query letter `a`: one for the query plus
one for every covering hit whose character at `pos` is canonical. -/
def resNocc (a : Char) (msa : List Seq) (hitIxs : List Nat) (pos : Nat) : Nat :=
  1 + hitIxs.countP (fun ix => kIX (seqCharAt msa ix pos) ≠ -1)

/-- Raw (pre-percentage) amino-acid distribution count at index `k`: the
query letter's own contribution plus every covering hit whose character at
`pos` maps to `k` through `kIX`. -/
def resDist (a : Char) (msa : List Seq) (hitIxs : List Nat) (pos : Nat) (k : Nat) : Nat :=
  (if kIX a = (k : Int) then 1 else 0) +
    hitIxs.countP (fun ix => kIX (seqCharAt msa ix pos) = (k : Int))

/-- ASCII lower-casing of a residue byte, as `tolower` acts on the letters
stored in the alignment (`Char.toLower` of the standard library). -/
def lowerChar (c : Char) : Char := c.toLower

/-- An alignment with every residue of every sequence lower-cased. -/
def lowerMsa (msa : List Seq) : List Seq :=
  msa.map (fun s => { s with seq := s.seq.map lowerChar })

end Xssp

namespace Xssp

/-- C1.  For every non-query sequence of a parsed Stockholm alignment the
homology filter computes `score = identicalColumns / comparedColumns`, looks
up index `clamp(comparedColumns, 10, 80) - 10` in the fixed 71-entry table
`kHomologyThreshold`, and removes the sequence from the alignment iff
`score < table[index]`; for `comparedColumns = 45`, `identicalColumns = 14`
the score is `14/45`, the index is 35, the sequence is rejected exactly when
entry 35 exceeds `14/45`, and indeed it is rejected. -/
theorem homology_filter_correct :
    (∀ s : Seq, s.length ≠ 0 →
      (dropSeq s = true ↔
        seqScore s < kHomologyThreshold.getD (max 10 (min s.length 80) - 10) 0)) ∧
    kHomologyThreshold.length = 71 ∧
    (∀ msa : List Seq, ∀ s : Seq,
      s ∈ (homologyFilter msa).tail ↔ s ∈ msa.tail ∧ dropSeq s = false) ∧
    (∀ s : Seq, s.length = 45 → s.identical = 14 →
      (dropSeq s = true ↔ kHomologyThreshold.getD 35 0 > (14 : ℚ) / 45)) ∧
    kHomologyThreshold.getD 35 0 > (14 : ℚ) / 45 := by
  refine ⟨?_, by decide, ?_, ?_, by norm_num [kHomologyThreshold]⟩
  · intro s hlen
    simp [dropSeq, thresholdIndex, hlen, bne_iff_ne]
  · intro msa s
    cases msa with
    | nil => simp [homologyFilter]
    | cons q hits => simp [homologyFilter, List.mem_filter]
  · intro s h45 h14
    have hidx : thresholdIndex 45 = 35 := by decide
    have hs : seqScore s = (14 : ℚ) / 45 := by
      simp [seqScore, h45, h14]
    simp [dropSeq, hidx, hs, h45, gt_iff_lt]

/-- Witness for C1 at a concrete sequence: compared columns 45, identical 14
is dropped, and the general equivalence holds there. -/
theorem homology_filter_correct_witness :
    dropSeq ⟨['H'], [], 14, 45⟩ = true ∧
    (dropSeq ⟨['H'], [], 14, 45⟩ = true ↔
      kHomologyThreshold.getD 35 0 > (14 : ℚ) / 45) := by
  have h := homology_filter_correct
  have h4 := h.2.2.2.1 ⟨['H'], [], 14, 45⟩ rfl rfl
  have h5 := h.2.2.2.2
  exact ⟨h4.mpr h5, h4⟩

/-- The no-space failure flag of the line loop depends only on the processed
lines: it is set iff some line before the terminating marker is a nonempty
non-comment line without a space. -/
theorem stoLoop_fst (lines : List (List Char)) : ∀ (msa : List Seq) (ix : Nat) (qseq : List Char),
    (stoLoop lines msa ix qseq).1 = (lines.takeWhile (· ≠ ['/', '/'])).any isDataNoSpace := by
  induction lines with
  | nil => intro msa ix qseq; rfl
  | cons line rest ih =>
    intro msa ix qseq
    by_cases h1 : line = []
    · subst h1
      simp [stoLoop, ih, isDataNoSpace]
    · by_cases h2 : line = ['/', '/']
      · subst h2; simp [stoLoop]
      · by_cases h4 : line.head? = some '#'
        · by_cases hgs : gsMark.isPrefixOf line
          · simp only [stoLoop, if_neg h1, if_neg h2, if_pos hgs]
            simp [ih, List.takeWhile_cons, h2, isDataNoSpace, h4]
          · simp only [stoLoop, if_neg h1, if_neg h2, if_neg hgs, if_neg (not_not_intro h4)]
            simp [ih, List.takeWhile_cons, h2, isDataNoSpace, h4]
        · have hgs : ¬ (gsMark.isPrefixOf line = true) := by
            intro hc
            rcases List.isPrefixOf_iff_prefix.mp hc with ⟨u, hu⟩
            apply h4
            rw [← hu]
            rfl
          cases hsp : splitAtSpace line with
          | none =>
            have h5 : ¬ (' ' ∈ line) := by
              rw [splitAtSpace] at hsp
              by_cases hm : ' ' ∈ line
              · rw [if_pos (by simpa using hm)] at hsp; cases hsp
              · exact hm
            have hn : isDataNoSpace line = true := by
              simp [isDataNoSpace, h1, h4, h5]
            simp only [stoLoop, if_neg h1, if_neg h2, if_neg hgs, if_pos h4, hsp]
            simp [List.takeWhile_cons, h2, hn]
          | some p =>
            obtain ⟨lid, lseq⟩ := p
            have h5 : ' ' ∈ line := by
              rw [splitAtSpace] at hsp
              by_cases hm : ' ' ∈ line
              · exact hm
              · rw [if_neg (by simpa using hm)] at hsp; cases hsp
            have hn : isDataNoSpace line = false := by
              simp [isDataNoSpace, h5]
            simp only [stoLoop, if_neg h1, if_neg h2, if_neg hgs, if_pos h4, hsp]
            by_cases h6 : lid = (msa.head?.map Seq.id).getD []
            · simp [h6, ih, List.takeWhile_cons, h2, hn]
            · simp [h6, ih, List.takeWhile_cons, h2, hn]

/-- C6.  `ReadStockholm` fails iff the first line is not `# STOCKHOLM 1.0`,
or the second line does not start with `#=GF ID `, or a non-comment data line
before the terminating `//` contains no space separator, or fewer than 2
sequences remain after parsing the blocks; on any other input it succeeds. -/
theorem readStockholm_error_iff (lines : List (List Char)) :
    exceptOk (readStockholm lines) = false ↔
      ((lines.head?.getD []) ≠ stockholmMarker ∨
       gfIdMark.isPrefixOf ((lines.drop 1).head?.getD []) = false ∨
       (bodyLines lines).any isDataNoSpace = true ∨
       parsedSeqCount lines < 2) := by
  have hbody : (parsedMSA lines).1 = (bodyLines lines).any isDataNoSpace := by
    rw [parsedMSA, stoLoop_fst]; rfl
  by_cases c1 : (lines.head?.getD []) = stockholmMarker
  · by_cases c2 : gfIdMark.isPrefixOf ((lines.drop 1).head?.getD []) = true
    · by_cases c3 : (bodyLines lines).any isDataNoSpace = true
      · have h1 : readStockholm lines = .error "Invalid stockholm file".toList := by
          rw [readStockholm, if_neg (not_not_intro c1), if_neg (by rw [c2]; simp),
            if_pos (hbody.trans c3)]
        exact iff_of_true (by rw [h1]; rfl) (Or.inr (Or.inr (Or.inl c3)))
      · by_cases c4 : (parsedMSA lines).2.length < 2
        · have h1 : readStockholm lines =
              .error "Insufficient sequences in Stockholm MSA".toList := by
            rw [readStockholm, if_neg (not_not_intro c1), if_neg (by rw [c2]; simp),
              if_neg (by rw [hbody]; simpa using c3), if_pos c4]
          exact iff_of_true (by rw [h1]; rfl) (Or.inr (Or.inr (Or.inr c4)))
        · have h1 : readStockholm lines = .ok (homologyFilter (parsedMSA lines).2) := by
            rw [readStockholm, if_neg (not_not_intro c1), if_neg (by rw [c2]; simp),
              if_neg (by rw [hbody]; simpa using c3), if_neg c4]
          refine iff_of_false (by rw [h1]; simp [exceptOk]) ?_
          rintro (h | h | h | h)
          · exact h c1
          · rw [c2] at h; cases h
          · exact c3 h
          · exact c4 h
    · have c2' : gfIdMark.isPrefixOf ((lines.drop 1).head?.getD []) = false :=
        Bool.eq_false_iff.mpr c2
      have h1 : readStockholm lines =
          .error "Not a valid stockholm file, missing GF ID line".toList := by
        rw [readStockholm, if_neg (not_not_intro c1), if_pos (by rw [c2']; rfl)]
      exact iff_of_true (by rw [h1]; rfl) (Or.inr (Or.inl c2'))
  · have h1 : readStockholm lines = .error "Not a stockholm file".toList := by
      rw [readStockholm, if_pos c1]
    exact iff_of_true (by rw [h1]; rfl) (Or.inl c1)

/-- C9.  The insufficient-sequence check of `ReadStockholm` is applied
before the homology filter runs: whenever the parse loop succeeds with at
least two sequences the result is the filtered alignment, so an input whose
every hit scores below threshold parses successfully into a query-only
alignment, while an input with only the query raises the error. -/
theorem insufficient_check_before_filter :
    (∀ lines : List (List Char),
      (lines.head?.getD []) = stockholmMarker →
      gfIdMark.isPrefixOf ((lines.drop 1).head?.getD []) = true →
      (parsedMSA lines).1 = false →
      2 ≤ (parsedMSA lines).2.length →
      readStockholm lines = .ok (homologyFilter (parsedMSA lines).2)) ∧
    readStockholm stoExampleAllDropped =
      .ok [⟨"Q1".toList, "AAAAAAAAAA".toList, 0, 0⟩] ∧
    (parsedMSA stoExampleAllDropped).2.length = 2 ∧
    readStockholm stoExampleQueryOnly =
      .error "Insufficient sequences in Stockholm MSA".toList := by
  have hgen : ∀ lines : List (List Char),
      (lines.head?.getD []) = stockholmMarker →
      gfIdMark.isPrefixOf ((lines.drop 1).head?.getD []) = true →
      (parsedMSA lines).1 = false →
      2 ≤ (parsedMSA lines).2.length →
      readStockholm lines = .ok (homologyFilter (parsedMSA lines).2) := by
    intro lines c1 c2 c3 c4
    rw [readStockholm, if_neg (not_not_intro c1), if_neg (by rw [c2]; simp),
      if_neg (by rw [c3]; simp), if_neg (by omega)]
  have hparse : parsedMSA stoExampleAllDropped =
      (false, [⟨"Q1".toList, "AAAAAAAAAA".toList, 0, 0⟩,
               ⟨"H1/1-10".toList, "CCCCCCCCCC".toList, 0, 10⟩]) := by decide
  have hdrop : dropSeq ⟨['H', '1', '/', '1', '-', '1', '0'],
      ['C', 'C', 'C', 'C', 'C', 'C', 'C', 'C', 'C', 'C'], 0, 10⟩ = true := by
    simp [dropSeq, seqScore, thresholdIndex, kHomologyThreshold]
    norm_num
  have hfilter : homologyFilter (parsedMSA stoExampleAllDropped).2 =
      [⟨"Q1".toList, "AAAAAAAAAA".toList, 0, 0⟩] := by
    rw [hparse]
    simp [homologyFilter, hdrop]
  have hparse2 : parsedMSA stoExampleQueryOnly =
      (false, [⟨"Q1".toList, "AAAA".toList, 0, 0⟩]) := by decide
  refine ⟨hgen, ?_, by rw [hparse]; rfl, ?_⟩
  · have h := hgen stoExampleAllDropped (by decide) (by decide)
      (by rw [hparse]) (by rw [hparse]; decide)
    rw [h, hfilter]
  · rw [readStockholm, if_neg (by decide), if_neg (by decide),
      if_neg (by rw [hparse2]; simp), if_pos (by rw [hparse2]; decide)]

/-- The Boolean comparison used by the sort is exactly the claim-side
descending lexicographic order on `(ide, lali)`. -/
theorem hitLE_iff (a b : Hit) : hitLE a b = true ↔ hitDescOrder a b := by
  simp only [hitLE, hitLt, hitDescOrder, Bool.not_eq_true', Bool.or_eq_false_iff,
    Bool.and_eq_false_iff, decide_eq_false_iff_not, not_lt]
  constructor
  · rintro ⟨h1, h2⟩
    rcases eq_or_lt_of_le h1 with he | hl
    · rcases h2 with hne | hle
      · exact absurd he hne
      · exact Or.inr ⟨he.symm, hle⟩
    · exact Or.inl hl
  · rintro (hl | ⟨he, hle⟩)
    · exact ⟨le_of_lt hl, Or.inl (ne_of_lt hl)⟩
    · exact ⟨le_of_eq he.symm, Or.inr hle⟩

/-- Transitivity of the hit comparison. -/
theorem hitLE_trans (a b c : Hit) : hitLE a b → hitLE b c → hitLE a c := by
  intro hab hbc
  rw [hitLE_iff] at hab hbc ⊢
  rcases hab with h1 | ⟨e1, l1⟩ <;> rcases hbc with h2 | ⟨e2, l2⟩
  · exact Or.inl (lt_trans h2 h1)
  · exact Or.inl (e2 ▸ h1)
  · exact Or.inl (e1 ▸ h2)
  · exact Or.inr ⟨e1.trans e2, le_trans l2 l1⟩

/-- Totality of the hit comparison. -/
theorem hitLE_total (a b : Hit) : hitLE a b || hitLE b a := by
  rw [Bool.or_eq_true, hitLE_iff, hitLE_iff]
  rcases lt_trichotomy a.ide b.ide with h | h | h
  · exact Or.inr (Or.inl h)
  · rcases le_total a.lali b.lali with hl | hl
    · exact Or.inr (Or.inr ⟨h.symm, hl⟩)
    · exact Or.inl (Or.inr ⟨h, hl⟩)
  · exact Or.inl (Or.inl h)

/-- The rank loop writes consecutive ranks starting at its seed. -/
theorem assignRanks_map_nr : ∀ (n : Nat) (l : List Hit),
    (assignRanks n l).map Hit.nr = List.range' n l.length := by
  intro n l
  induction l generalizing n with
  | nil => rfl
  | cons h t ih => simp [assignRanks, List.range'_succ, ih]

/-- Rank assignment keeps the list length. -/
theorem assignRanks_length (n : Nat) (l : List Hit) :
    (assignRanks n l).length = l.length := by
  have := congrArg List.length (assignRanks_map_nr n l)
  simpa using this

/-- C3.  The final hit sort puts hits in descending order of `ide` with ties
broken by descending `lali`, ranks are assigned consecutively from 1 in the
sorted order, the sorted list is a permutation of the input, and sorting the
same hit set twice yields the identical order. -/
theorem hit_sort_spec :
    (∀ l : List Hit, (sortHits l).Pairwise hitDescOrder) ∧
    (∀ l : List Hit, (sortHits l).Perm l) ∧
    (∀ l : List Hit, (assignRanks 1 (sortHits l)).map Hit.nr = List.range' 1 l.length) ∧
    (∀ l : List Hit, sortHits (sortHits l) = sortHits l) := by
  have hsorted : ∀ l : List Hit, (sortHits l).Pairwise (fun a b => hitLE a b = true) :=
    fun l => @List.sorted_mergeSort Hit hitLE
      (fun a b c => hitLE_trans a b c) (fun a b => hitLE_total a b) l
  refine ⟨?_, ?_, ?_, ?_⟩
  · intro l
    exact (hsorted l).imp (fun h => (hitLE_iff _ _).mp h)
  · intro l
    exact List.mergeSort_perm l hitLE
  · intro l
    rw [assignRanks_map_nr]
    have : (sortHits l).length = l.length := (List.mergeSort_perm l hitLE).length_eq
    rw [this]
  · intro l
    exact List.mergeSort_of_sorted (hsorted l)

/-- Closed form of the column loop: `identical` and `similar` grow by the
match-column counts, and `lali` shrinks by the common-gap count. -/
theorem walk_stats (sp : Char → Char → Bool) (l : List (Char × Char)) :
    ∀ st : WalkSt,
      (walk sp l st).ident = st.ident + l.countP colIdent ∧
      (walk sp l st).sim = st.sim + l.countP (colSim sp) ∧
      (walk sp l st).lali = st.lali - l.countP colCommon := by
  induction l with
  | nil => intro st; simp [walk]
  | cons p t ih =>
    intro st
    have hw : walk sp (p :: t) st = walk sp t (walkStep sp st p) := rfl
    obtain ⟨ih1, ih2, ih3⟩ := ih (walkStep sp st p)
    by_cases hq : isGap p.1 = true <;> by_cases hs : isGap p.2 = true
    · refine ⟨?_, ?_, ?_⟩ <;>
      · rw [hw]
        first
        | rw [ih1] | rw [ih2] | rw [ih3]
        simp [walkStep, hq, hs, List.countP_cons, colIdent, colSim, colCommon]
        try omega
    · refine ⟨?_, ?_, ?_⟩ <;>
      · rw [hw]
        first
        | rw [ih1] | rw [ih2] | rw [ih3]
        simp [walkStep, hq, hs, List.countP_cons, colIdent, colSim, colCommon]
    · refine ⟨?_, ?_, ?_⟩ <;>
      · rw [hw]
        first
        | rw [ih1] | rw [ih2] | rw [ih3]
        simp [walkStep, hq, hs, List.countP_cons, colIdent, colSim, colCommon]
    · by_cases heq : p.1 = p.2 <;> by_cases hsp : sp p.1 p.2 = true <;>
      · refine ⟨?_, ?_, ?_⟩ <;>
        · rw [hw]
          first
          | rw [ih1] | rw [ih2] | rw [ih3]
          simp [walkStep, hq, hs, heq, hsp, List.countP_cons, colIdent, colSim, colCommon]
          try omega

/-- C2 counterexample.  For query `AB` against hit `-B` the constructor trims
one boundary column, the trimmed alignment has length 1 and no common gaps,
yet `lali = 2` (it starts at the full alignment length), so
`lali + commonGaps ≠ trimmed length`. -/
theorem hit_lali_counterexample :
    (mkHit (fun _ _ => false) ['A', 'B'] ['-', 'B'] ['H', '/', '1', '-', '1']).map Hit.lali
      = some 2 ∧
    trimmedLength ['-', 'B'] = 1 ∧
    commonGapCols ['A', 'B'] ['-', 'B'] = 0 ∧
    2 + 0 ≠ 1 :=
  ⟨by decide, by decide, by decide, by decide⟩

/-- C2 amended.  Every successfully constructed Hit satisfies
`identical ≤ similar ≤ lali`, and `lali` plus the number of common-gap
columns equals the full (untrimmed) alignment length `s.length`, not the
trimmed length: the boundary columns removed by the trim loops stay counted
in `lali`. -/
theorem hit_invariant_amended (sp : Char → Char → Bool) (q s sid : List Char) (h : Hit)
    (hlen : q.length = s.length) (hmk : mkHit sp q s sid = some h) :
    h.identical ≤ h.similar ∧ h.similar ≤ h.lali ∧
    h.lali + commonGapCols q s = s.length := by
  rw [mkHit] at hmk
  split at hmk
  · exact absurd hmk (by simp)
  · split at hmk
    · exact absurd hmk (by simp)
    · cases hpid : parseHitId sid with
      | none => rw [hpid] at hmk; exact absurd hmk (by simp)
      | some pr =>
        obtain ⟨hid, jf, jl⟩ := pr
        rw [hpid] at hmk
        simp only [Option.some.injEq] at hmk
        subst hmk
        obtain ⟨hw1, hw2, hw3⟩ := walk_stats sp (trimmedCols q s)
          ⟨false, false, 0, 0, 0, 0, s.length, hitTrimLead s⟩
        have hLlen : (trimmedCols q s).length ≤ s.length := by
          rw [trimmedCols]
          simp only [List.length_zip, List.length_take, List.length_drop]
          omega
        have hm1 : (trimmedCols q s).countP colIdent ≤
            (trimmedCols q s).countP (colSim sp) := by
          refine List.countP_mono_left ?_
          intro x _ hx
          simp only [colIdent, Bool.and_eq_true, decide_eq_true_eq] at hx
          simp [colSim, hx.1.1, hx.1.2, hx.2]
        have hpart := @List.length_eq_countP_add_countP (Char × Char) colCommon (trimmedCols q s)
        have hm2 : (trimmedCols q s).countP (colSim sp) ≤
            (trimmedCols q s).countP (fun a => ¬ colCommon a) := by
          refine List.countP_mono_left ?_
          intro x _ hx
          simp only [colSim, Bool.and_eq_true, Bool.not_eq_true'] at hx
          simp [colCommon, hx.1.1]
        have hcle : (trimmedCols q s).countP colCommon ≤ (trimmedCols q s).length :=
          List.countP_le_length _
        dsimp only at hw1 hw2 hw3 ⊢
        rw [hw1, hw2, hw3, commonGapCols]
        omega

/-- Witness for the amended C2 at query `AB`, hit `AB`, id `H/1-2`:
`identical = similar = lali = 2` and `lali` plus zero common gaps is the
alignment length. -/
theorem hit_invariant_amended_witness :
    (2 : Nat) ≤ 2 ∧ (2 : Nat) ≤ 2 ∧
      2 + commonGapCols ['A', 'B'] ['A', 'B'] = (['A', 'B'] : List Char).length :=
  hit_invariant_amended (fun _ _ => false) ['A', 'B'] ['A', 'B'] ['H', '/', '1', '-', '2']
    ⟨['H'], 0, 1, 2, 1, 2, 2, 0, 0, 2, 2,
      ((2 : Nat) : ℚ) / ((2 : Nat) : ℚ), ((2 : Nat) : ℚ) / ((2 : Nat) : ℚ)⟩
    rfl rfl

/-- A found substring position is a position at which the pattern is a
prefix of the rest. -/
theorem findSub_prefix (pat : List Char) :
    ∀ (l : List Char) (k : Nat), findSub pat l = some k → pat <+: l.drop k := by
  intro l
  induction l with
  | nil =>
    intro k h
    rw [findSub] at h
    split at h
    · rename_i hp
      obtain rfl : 0 = k := Option.some.inj h
      exact List.isPrefixOf_iff_prefix.mp hp
    · cases h
  | cons c t ih =>
    intro k h
    rw [findSub] at h
    split at h
    · rename_i hp
      obtain rfl : 0 = k := Option.some.inj h
      exact List.isPrefixOf_iff_prefix.mp hp
    · rw [Option.map_eq_some'] at h
      obtain ⟨a, ha, hk⟩ := h
      subst hk
      exact ih a ha

/-- A found substring position is at most the length of the searched
string. -/
theorem findSub_le (pat : List Char) :
    ∀ (l : List Char) (k : Nat), findSub pat l = some k → k ≤ l.length := by
  intro l
  induction l with
  | nil =>
    intro k h
    rw [findSub] at h
    split at h
    · obtain rfl : 0 = k := Option.some.inj h
      exact Nat.le_refl 0
    · cases h
  | cons c t ih =>
    intro k h
    rw [findSub] at h
    split at h
    · obtain rfl : 0 = k := Option.some.inj h
      exact Nat.zero_le _
    · rw [Option.map_eq_some'] at h
      obtain ⟨a, ha, hk⟩ := h
      subst hk
      simpa using Nat.succ_le_succ (ih a ha)

/-- The substring search succeeds on every actual substring. -/
theorem infix_findSub (pat : List Char) :
    ∀ l : List Char, pat <:+: l → (findSub pat l).isSome = true := by
  intro l
  induction l with
  | nil =>
    intro h
    rw [List.infix_nil] at h
    subst h
    rfl
  | cons c t ih =>
    intro h
    rw [List.infix_cons_iff] at h
    rw [findSub]
    rcases h with h | h
    · rw [if_pos (List.isPrefixOf_iff_prefix.mpr h)]
      rfl
    · split
      · rfl
      · simpa using ih h

/-- Gap stripping distributes over concatenation. -/
theorem stripGaps_append (u v : List Char) :
    stripGaps (u ++ v) = stripGaps u ++ stripGaps v := by
  simp [stripGaps]

/-- The query row of a row-mapped alignment. -/
theorem queryRow_map (f : List Char → List Char) (hf : f [] = []) (msa : List (List Char)) :
    queryRow (msa.map f) = f (queryRow msa) := by
  cases msa with
  | nil => simp [queryRow, hf]
  | cons a t => simp [queryRow]

/-- C4 counterexample.  With query row `-AB` and reference `B`, the offset is
found in gap-stripped coordinates but whole alignment columns are erased, so
`CheckAlignmentForChain` returns without error while the gap-stripped query
afterwards is `AB`, not the reference `B`. -/
theorem checkAlignment_counterexample :
    checkAlignmentForChain [['-', 'A', 'B']] ['B'] = .ok [['A', 'B']] ∧
    stripGaps ['A', 'B'] ≠ ['B'] :=
  ⟨by decide, by decide⟩

/-- C4 amended.  `CheckAlignmentForChain` returns without error iff the
reference chain sequence is a substring of the gap-stripped query (in
particular it throws whenever the gap-stripped query is shorter); and when it
returns without error the gap-stripped query afterwards equals the reference
provided the erased boundary columns of the query row contain no gap
symbols — with gaps in the erased flanks the two can differ. -/
theorem checkAlignment_amended :
    (∀ (msa : List (List Char)) (sc : List Char),
      exceptOk (checkAlignmentForChain msa sc) = true ↔
        sc <:+: stripGaps (queryRow msa)) ∧
    (∀ (msa : List (List Char)) (sc : List Char) (out : List (List Char)) (k : Nat),
      checkAlignmentForChain msa sc = .ok out →
      stripGaps (queryRow msa) ≠ sc →
      findSub sc (stripGaps (queryRow msa)) = some k →
      (∀ c ∈ (queryRow msa).take k, isGap c = false) →
      (∀ c ∈ (queryRow msa).drop
          ((queryRow msa).length - chainTailTrim (stripGaps (queryRow msa)) sc k),
        isGap c = false) →
      stripGaps (queryRow out) = sc) := by
  constructor
  · intro msa sc
    by_cases h0 : stripGaps (queryRow msa) = sc
    · rw [checkAlignmentForChain, if_pos h0]
      exact iff_of_true rfl (h0 ▸ List.infix_rfl)
    · rw [checkAlignmentForChain, if_neg h0]
      by_cases h1 : (stripGaps (queryRow msa)).length < sc.length
      · rw [if_pos h1]
        refine iff_of_false (by simp [exceptOk]) ?_
        intro hinf
        have := hinf.length_le
        omega
      · rw [if_neg h1]
        cases hf : findSub sc (stripGaps (queryRow msa)) with
        | none =>
          simp only [hf]
          refine iff_of_false (by simp [exceptOk]) ?_
          intro hinf
          have := infix_findSub sc _ hinf
          rw [hf] at this
          cases this
        | some k =>
          simp only [hf]
          refine iff_of_true rfl ?_
          obtain ⟨t, ht⟩ := findSub_prefix sc _ k hf
          exact ⟨(stripGaps (queryRow msa)).take k, t, by
            rw [List.append_assoc, ht, List.take_append_drop]⟩
  · intro msa sc out k hok hne hf hfl1 hfl2
    have hkle := findSub_le sc _ k hf
    have hpre := findSub_prefix sc _ k hf
    have hscle : sc.length ≤ (stripGaps (queryRow msa)).length - k := by
      have := hpre.length_le
      simpa [List.length_drop] using this
    have hnlt : ¬ (stripGaps (queryRow msa)).length < sc.length := by omega
    rw [checkAlignmentForChain, if_neg hne, if_neg hnlt] at hok
    simp only [hf] at hok
    have hout0 : (if (stripGaps (queryRow msa)).length > sc.length + k then
        (if k > 0 then msa.map (fun s => s.drop k) else msa).map
          (fun s => s.take (s.length - chainTailTrim (stripGaps (queryRow msa)) sc k))
      else if k > 0 then msa.map (fun s => s.drop k) else msa) = out := Except.ok.inj hok
    set q := queryRow msa with hq
    set sa := stripGaps (queryRow msa) with hsa
    set n := chainTailTrim sa sc k with hn
    have hnd : n = sa.length - (sc.length + k) := by rw [hn, chainTailTrim]
    have hsalen : sa.length ≤ q.length := List.length_filter_le _ _
    have hmsa1 : queryRow (if k > 0 then msa.map (fun s => s.drop k) else msa) = q.drop k := by
      by_cases hk0 : k > 0
      · rw [if_pos hk0, queryRow_map _ (by simp) msa]
      · rw [if_neg hk0]
        have hz : k = 0 := by omega
        rw [hz, List.drop_zero]
    have hout : queryRow out = (q.drop k).take ((q.drop k).length - n) := by
      rw [← hout0]
      by_cases hgt : sa.length > sc.length + k
      · rw [if_pos hgt, queryRow_map _ (by simp) _, hmsa1]
      · rw [if_neg hgt, hmsa1]
        have hn0 : n = 0 := by omega
        rw [hn0, Nat.sub_zero, List.take_length]
    have hfl1' : ∀ c ∈ q.take k, (fun c => !isGap c) c = true := by
      intro c hc
      simp [hfl1 c hc]
    have htake : stripGaps (q.take k) = q.take k := by
      rw [stripGaps, List.filter_eq_self.mpr hfl1']
    have hsplit : sa = q.take k ++ stripGaps (q.drop k) := by
      rw [hsa]
      conv_lhs => rw [← List.take_append_drop k (queryRow msa)]
      rw [stripGaps_append, htake]
    have hlentake : (q.take k).length = k := by
      rw [List.length_take]
      omega
    have hdropk : sa.drop k = stripGaps (q.drop k) := by
      rw [hsplit, List.drop_left' hlentake]
    have hAlen : (q.drop k).length = q.length - k := List.length_drop _ _
    have hfl2' : ∀ c ∈ (q.drop k).drop ((q.drop k).length - n),
        (fun c => !isGap c) c = true := by
      intro c hc
      have hidx : (q.drop k).drop ((q.drop k).length - n) = q.drop (q.length - n) := by
        rw [List.drop_drop]
        congr 1
        omega
      rw [hidx] at hc
      simp [hfl2 c hc]
    have hsplitA : stripGaps (q.drop k) =
        stripGaps ((q.drop k).take ((q.drop k).length - n)) ++
          (q.drop k).drop ((q.drop k).length - n) := by
      conv_lhs => rw [← List.take_append_drop ((q.drop k).length - n) (q.drop k)]
      rw [stripGaps_append]
      congr 1
      rw [stripGaps, List.filter_eq_self.mpr hfl2']
    have hZlen : ((q.drop k).drop ((q.drop k).length - n)).length = n := by
      rw [List.length_drop]
      omega
    have hXlen : (sa.drop k).length = sa.length - k := List.length_drop _ _
    have hYlen : (stripGaps ((q.drop k).take ((q.drop k).length - n))).length = sc.length := by
      have hc := congrArg List.length hsplitA
      rw [List.length_append, hZlen, ← hdropk, hXlen] at hc
      omega
    have hY : stripGaps ((q.drop k).take ((q.drop k).length - n)) =
        (sa.drop k).take sc.length := by
      rw [hdropk, hsplitA, List.take_left' hYlen]
    have hsc : (sa.drop k).take sc.length = sc := (List.prefix_iff_eq_take.mp hpre).symm
    rw [hout, hY, hsc]

/-- Witness for the amended C4: query row `ABC` against reference `BC` trims
one gap-free leading column and the gap-stripped query afterwards equals the
reference. -/
theorem checkAlignment_amended_witness :
    stripGaps (queryRow [['B', 'C']]) = ['B', 'C'] :=
  checkAlignment_amended.2 [['A', 'B', 'C']] ['B', 'C'] [['B', 'C']] 1
    (by decide) (by decide) (by decide) (by decide) (by decide)

/-- Closed form of a skip-or-accumulate fold over a pair of rational
accumulators. -/
theorem foldl_pair_if {α : Type} (P : α → Prop) [DecidablePred P] (f g : α → ℚ) :
    ∀ (l : List α) (init : ℚ × ℚ),
      l.foldl (fun acc x => if P x then acc else (acc.1 + f x, acc.2 + g x)) init =
      (init.1 + (l.map (fun x => if P x then 0 else f x)).sum,
       init.2 + (l.map (fun x => if P x then 0 else g x)).sum) := by
  intro l
  induction l with
  | nil => intro init; simp
  | cons x t ih =>
    intro init
    rw [List.foldl_cons]
    by_cases hx : P x
    · rw [if_pos hx, ih]
      simp [hx]
    · rw [if_neg hx, ih]
      simp [hx, add_assoc]

/-- The indices greater than `i` below `N`. -/
theorem range_filter_lt (i : Nat) : ∀ N : Nat,
    (List.range N).filter (fun j => decide (i < j)) = List.range' (i + 1) (N - (i + 1)) := by
  intro N
  induction N with
  | zero => simp
  | succ n ih =>
    rw [List.range_succ, List.filter_append, ih]
    by_cases h : i < n
    · have h1 : List.filter (fun j => decide (i < j)) [n] = [n] := by simp [h]
      rw [h1]
      have h2 : n + 1 - (i + 1) = (n - (i + 1)) + 1 := by omega
      rw [h2, List.range'_1_concat]
      congr 2
      omega
    · have h1 : List.filter (fun j => decide (i < j)) [n] = ([] : List Nat) := by simp [h]
      rw [h1, List.append_nil]
      congr 1
      omega

/-- The guarded triangular double sum of the conservation loops (outer index
up to `N - 2`, inner index from `i + 1`) equals the claim-side sum over all
pairs `i < j` below `N` with both endpoints canonical. -/
theorem double_sum_tri (N : Nat) (c : Nat → Prop) [DecidablePred c] (v : Nat → Nat → ℚ) :
    ((List.range (N - 1)).map (fun i =>
      if c i then 0 else ((List.range' (i + 1) (N - (i + 1))).map (fun j =>
        if c j then 0 else v i j)).sum)).sum =
    ((List.range N).map (fun i =>
      (((List.range N).filter (fun j => decide (i < j))).map (fun j =>
        if ¬ c i ∧ ¬ c j then v i j else 0)).sum)).sum := by
  cases N with
  | zero => rfl
  | succ m =>
    have hb : ∀ i ∈ List.range m,
        (if c i then 0 else ((List.range' (i + 1) (m + 1 - (i + 1))).map (fun j =>
          if c j then 0 else v i j)).sum) =
        (((List.range m ++ [m]).filter (fun j => decide (i < j))).map (fun j =>
          if ¬ c i ∧ ¬ c j then v i j else 0)).sum := by
      intro i hi
      have hi' : i < m := List.mem_range.mp hi
      rw [List.filter_append, range_filter_lt]
      have hfm : List.filter (fun j => decide (i < j)) [m] = [m] := by simp [hi']
      rw [hfm]
      have hr : m + 1 - (i + 1) = (m - (i + 1)) + 1 := by omega
      rw [hr, List.range'_1_concat]
      have hm' : i + 1 + (m - (i + 1)) = m := by omega
      rw [hm']
      by_cases hc : c i
      · rw [if_pos hc]
        symm
        refine List.sum_eq_zero ?_
        intro x hx
        rw [List.mem_map] at hx
        obtain ⟨j, _, hxe⟩ := hx
        rw [← hxe, if_neg (by simp [hc])]
      · rw [if_neg hc]
        refine congrArg List.sum (List.map_congr_left ?_)
        intro j _
        by_cases hcj : c j
        · rw [if_pos hcj, if_neg (by simp [hcj])]
        · rw [if_neg hcj, if_pos ⟨hc, hcj⟩]
    have ha : (((List.range m ++ [m]).filter (fun j => decide (m < j))).map (fun j =>
        if ¬ c m ∧ ¬ c j then v m j else 0)).sum = 0 := by
      rw [List.filter_append, range_filter_lt]
      have h0 : m - (m + 1) = 0 := by omega
      have hfm : List.filter (fun j => decide (m < j)) [m] = ([] : List Nat) := by simp
      rw [h0, hfm]
      rfl
    simp only [List.range_succ, Nat.add_sub_cancel, List.map_append, List.sum_append]
    rw [List.map_congr_left hb]
    have hsing : ([m].map (fun i => (((List.range m ++ [m]).filter
        (fun j => decide (i < j))).map
        (fun j => if ¬ c i ∧ ¬ c j then v i j else 0)).sum)).sum = 0 := by
      simp only [List.map_cons, List.map_nil, List.sum_cons, List.sum_nil, add_zero]
      exact ha
    rw [hsing, add_zero]

/-- The two accumulators of `CalculateConservation` compute exactly the
claim-side pair sums. -/
theorem conservationSums_eq (msa : List Seq) (r : Nat) (w : Nat → Nat → ℚ) :
    conservationSums msa r w = (conservationSpecNum msa r w, conservationSpecDen msa r w) := by
  rw [conservationSums, conservationSpecNum, conservationSpecDen]
  simp only [foldl_pair_if (fun j => kIX (seqCharAt msa j r) = -1)]
  rw [Prod.mk.injEq]
  constructor
  · rw [zero_add]
    exact double_sum_tri msa.length (fun i => kIX (seqCharAt msa i r) = -1) _
  · rw [zero_add]
    exact double_sum_tri msa.length (fun i => kIX (seqCharAt msa i r) = -1) _

/-- C5.  `CalculateConservation` returns
`Σ w(i,j)·D(aa_i, aa_j) / Σ w(i,j)·1.5` over exactly the sequence pairs
`i < j` whose residues at column `r` are both canonical; the Dayhoff matrix
is symmetric with diagonal `1.5`; and the result is exactly `1.0` whenever
the weight sum is zero. -/
theorem conservation_spec_correct :
    (∀ (msa : List Seq) (r : Nat) (w : Nat → Nat → ℚ),
      calculateConservation msa r w = conservationSpec msa r w) ∧
    (∀ i j : Nat, dayhoff i j = dayhoff j i) ∧
    (∀ i : Nat, i < 20 → dayhoff i i = 1.5) ∧
    (∀ (msa : List Seq) (r : Nat) (w : Nat → Nat → ℚ),
      conservationSpecDen msa r w = 0 → calculateConservation msa r w = 1) := by
  have hmain : ∀ (msa : List Seq) (r : Nat) (w : Nat → Nat → ℚ),
      calculateConservation msa r w = conservationSpec msa r w := by
    intro msa r w
    rw [calculateConservation, conservationSpec, conservationSums_eq]
  refine ⟨hmain, ?_, ?_, ?_⟩
  · intro i j
    rw [dayhoff, dayhoff, Nat.max_comm, Nat.min_comm]
  · intro i hi
    interval_cases i <;> rfl
  · intro msa r w hden
    rw [hmain, conservationSpec, if_pos hden]

/-- Witness for C5 on a two-sequence alignment with no canonical residues at
the column (empty sequence strings): the weight sum is zero and the
conservation defaults to `1.0`. -/
theorem conservation_spec_correct_witness :
    calculateConservation [⟨['Q'], [], 0, 0⟩, ⟨['H'], [], 0, 0⟩] 0 (fun _ _ => 1) = 1 := by
  have hden : conservationSpecDen [⟨['Q'], [], 0, 0⟩, ⟨['H'], [], 0, 0⟩] 0 (fun _ _ => 1) = 0 := by
    have := conservationSums_eq [⟨['Q'], [], 0, 0⟩, ⟨['H'], [], 0, 0⟩] 0 (fun _ _ => 1)
    have h2 : (conservationSums [⟨['Q'], [], 0, 0⟩, ⟨['H'], [], 0, 0⟩] 0 (fun _ _ => 1)).2
        = 0 := by decide
    rw [this] at h2
    exact h2
  exact conservation_spec_correct.2.2.2 [⟨['Q'], [], 0, 0⟩, ⟨['H'], [], 0, 0⟩] 0
    (fun _ _ => 1) hden

/-- C7 counterexample.  A hit whose character at the column is `'z'` under a
gapped next query column is not counted by `nins` (the code tests the range
`'a'..'y'`), while the claimed "lowercase insertion marker" reading counts
it. -/
theorem nins_lowercase_counterexample :
    resNins [⟨['Q'], ['A', '-'], 0, 0⟩, ⟨['H'], ['z', 'z'], 0, 0⟩] [1] 0 = 0 ∧
    resNinsLowercase [⟨['Q'], ['A', '-'], 0, 0⟩, ⟨['H'], ['z', 'z'], 0, 0⟩] [1] 0 = 1 ∧
    (0 : Nat) ≠ 1 :=
  ⟨by decide, by decide, by decide⟩

/-- C7 amended.  `ndel` counts the covering hits gapped at the column;
`nins` counts the covering hits whose character at the column lies in
`'a'..'y'` (so `'z'` is never counted), and only when the next query column
exists and is a gap; and both outputs depend on the query row only through
its length and its character at `pos + 1`, so the previous query column is
never examined. -/
theorem residue_ndel_nins_amended :
    (∀ (msa : List Seq) (hitIxs : List Nat) (pos : Nat),
      resNdel msa hitIxs pos = hitIxs.countP (fun ix => isGap (seqCharAt msa ix pos)) ∧
      resNins msa hitIxs pos =
        (if resGapNext msa pos
         then hitIxs.countP (fun ix =>
           decide ('a' ≤ seqCharAt msa ix pos) && decide (seqCharAt msa ix pos ≤ 'y'))
         else 0)) ∧
    (∀ (msa msa' : List Seq) (hitIxs : List Nat) (pos : Nat),
      (∀ ix : Nat, seqCharAt msa' ix pos = seqCharAt msa ix pos) →
      (msa'.headD default).seq.length = (msa.headD default).seq.length →
      (msa'.headD default).seq.getD (pos + 1) ' ' =
        (msa.headD default).seq.getD (pos + 1) ' ' →
      resNdel msa' hitIxs pos = resNdel msa hitIxs pos ∧
      resNins msa' hitIxs pos = resNins msa hitIxs pos) := by
  constructor
  · intro msa hitIxs pos
    refine ⟨rfl, ?_⟩
    by_cases hg : resGapNext msa pos
    · rw [if_pos hg, resNins]
      refine List.countP_congr ?_
      intro ix _
      simp [hg]
    · rw [if_neg hg, resNins]
      refine List.countP_eq_zero.mpr ?_
      intro ix _
      simp [Bool.eq_false_iff.mpr hg]
  · intro msa msa' hitIxs pos hch hlen hnext
    have hgap : resGapNext msa' pos = resGapNext msa pos := by
      rw [resGapNext, resGapNext, hlen, hnext]
    constructor
    · rw [resNdel, resNdel]
      refine List.countP_congr ?_
      intro ix _
      rw [hch ix]
    · rw [resNins, resNins]
      refine List.countP_congr ?_
      intro ix _
      rw [hch ix, hgap]

/-- Witness for the amended C7: replacing the query residue in the column
before the profiled one (position 0 for a profile at position 1) leaves
`ndel` and `nins` unchanged — the previous query column is never examined. -/
theorem residue_ndel_nins_amended_witness :
    resNdel [⟨['Q'], ['Y', 'A', '-'], 0, 0⟩, ⟨['H'], ['z', 'z', 'z'], 0, 0⟩] [1] 1 =
      resNdel [⟨['Q'], ['X', 'A', '-'], 0, 0⟩, ⟨['H'], ['z', 'z', 'z'], 0, 0⟩] [1] 1 ∧
    resNins [⟨['Q'], ['Y', 'A', '-'], 0, 0⟩, ⟨['H'], ['z', 'z', 'z'], 0, 0⟩] [1] 1 =
      resNins [⟨['Q'], ['X', 'A', '-'], 0, 0⟩, ⟨['H'], ['z', 'z', 'z'], 0, 0⟩] [1] 1 :=
  residue_ndel_nins_amended.2
    [⟨['Q'], ['X', 'A', '-'], 0, 0⟩, ⟨['H'], ['z', 'z', 'z'], 0, 0⟩]
    [⟨['Q'], ['Y', 'A', '-'], 0, 0⟩, ⟨['H'], ['z', 'z', 'z'], 0, 0⟩]
    [1] 1
    (by intro ix; cases ix with
      | zero => rfl
      | succ n => cases n with
        | zero => rfl
        | succ m => rfl)
    (by decide) (by decide)

/-- The lower-cased alignment keeps the row of every index, with its
residues lower-cased. -/
theorem getD_lowerMsa (msa : List Seq) (ix : Nat) :
    (lowerMsa msa).getD ix default =
      { msa.getD ix default with seq := (msa.getD ix default).seq.map lowerChar } := by
  rw [lowerMsa, List.getD_eq_getElem?_getD, List.getD_eq_getElem?_getD, List.getElem?_map]
  cases msa[ix]? with
  | none => rfl
  | some s => rfl

/-- Lower-casing commutes with column access. -/
theorem seqCharAt_lower (msa : List Seq) (ix pos : Nat) :
    seqCharAt (lowerMsa msa) ix pos = lowerChar (seqCharAt msa ix pos) := by
  rw [seqCharAt, seqCharAt, getD_lowerMsa]
  simp only [List.getD_eq_getElem?_getD, List.getElem?_map]
  cases hp : (msa[ix]?.getD default).seq[pos]? with
  | none => rfl
  | some c => rfl

set_option maxRecDepth 8000 in
/-- `kIX` does not distinguish case: lowering a byte never changes its
amino-acid index. -/
theorem kIX_lowerChar (c : Char) : kIX (lowerChar c) = kIX c := by
  rw [lowerChar, Char.toLower]
  by_cases h : c.toNat ≥ 65 ∧ c.toNat ≤ 90
  · rw [if_pos h]
    have hvalid : (c.toNat + 32).isValidChar := Or.inl (by omega)
    have hv : (Char.ofNat (c.toNat + 32)).toNat = c.toNat + 32 := by
      rw [Char.ofNat, dif_pos hvalid]
      rfl
    rw [kIX, kIX, hv]
    have h1 : (c.toNat + 32) % 256 = c.toNat + 32 := Nat.mod_eq_of_lt (by omega)
    have h2 : c.toNat % 256 = c.toNat := Nat.mod_eq_of_lt (by omega)
    rw [h1, h2]
    obtain ⟨hlo, hhi⟩ := h
    revert hlo hhi
    generalize c.toNat = m
    intro hlo hhi
    interval_cases m <;> rfl
  · rw [if_neg h]

set_option maxRecDepth 200000 in
/-- C10.  The byte-index table maps every lowercase letter to the same index
as its uppercase counterpart and every non-letter byte to `-1`; consequently
lower-casing the alignment leaves `nocc`, the 20-letter distribution counts
and the conservation score unchanged. -/
theorem kIX_case_insensitive :
    (∀ b : Nat, b < 123 → 97 ≤ b → kIXB b = kIXB (b - 32)) ∧
    (∀ b : Nat, b < 256 → ¬ ((65 ≤ b ∧ b ≤ 90) ∨ (97 ≤ b ∧ b ≤ 122)) → kIXB b = -1) ∧
    (∀ c : Char, kIX (lowerChar c) = kIX c) ∧
    (∀ (a : Char) (msa : List Seq) (hitIxs : List Nat) (pos : Nat),
      resNocc a (lowerMsa msa) hitIxs pos = resNocc a msa hitIxs pos ∧
      ∀ k : Nat, resDist a (lowerMsa msa) hitIxs pos k = resDist a msa hitIxs pos k) ∧
    (∀ (msa : List Seq) (r : Nat) (w : Nat → Nat → ℚ),
      calculateConservation (lowerMsa msa) r w = calculateConservation msa r w) := by
  refine ⟨by decide, by decide, kIX_lowerChar, ?_, ?_⟩
  · intro a msa hitIxs pos
    constructor
    · rw [resNocc, resNocc]
      congr 1
      refine List.countP_congr ?_
      intro ix _
      simp [seqCharAt_lower, kIX_lowerChar]
    · intro k
      rw [resDist, resDist]
      congr 1
      refine List.countP_congr ?_
      intro ix _
      simp [seqCharAt_lower, kIX_lowerChar]
  · intro msa r w
    have hL : (lowerMsa msa).length = msa.length := by
      rw [lowerMsa, List.length_map]
    have hsums : conservationSums (lowerMsa msa) r w = conservationSums msa r w := by
      rw [conservationSums, conservationSums, hL]
      simp only [seqCharAt_lower, kIX_lowerChar]
    rw [calculateConservation, calculateConservation, hsums]

/-- Witness for C10 at byte 97 (`'a'`): its index equals that of byte 65
(`'A'`). -/
theorem kIX_case_insensitive_witness : kIXB 97 = kIXB 65 :=
  kIX_case_insensitive.1 97 (by decide) (by decide)

/-- C8 counterexample.  The `CreateHSSP` variant of hh-hssp.cpp sorts its
hit list and assigns ranks with no truncation: on 10000 hits it keeps all
10000, `NALIGN` is 10000 > 9999 and rank 10000 is printed, refuting the
claim for that variant. -/
theorem hh_truncation_counterexample :
    (hhPostProcess (List.replicate 10000 blankHit)).length = 10000 ∧
    9999 < (hhPostProcess (List.replicate 10000 blankHit)).length ∧
    10000 ∈ (hhPostProcess (List.replicate 10000 blankHit)).map Hit.nr := by
  have hlen : (hhPostProcess (List.replicate 10000 blankHit)).length = 10000 := by
    rw [hhPostProcess, assignRanks_length, List.length_mergeSort, List.length_replicate]
  refine ⟨hlen, by rw [hlen]; omega, ?_⟩
  have hmap := assignRanks_map_nr 1 ((List.replicate 10000 blankHit).mergeSort hhHitLE)
  rw [hhPostProcess, hmap, List.length_mergeSort, List.length_replicate,
    List.mem_range'_1]
  omega

/-- C8 amended.  In the three `CreateHSSP` variants of the hmmer translation
unit (not in the hh-hssp.cpp variant), the sorted hit list is truncated to at
most 9999 entries before ranks are assigned: the output length is
`min 9999 n`, `NALIGN` never exceeds 9999, every printed rank is between 1
and 9999, and the retained hits precede every discarded hit in the
descending `(ide, lali)` order. -/
theorem hmmer_truncation_amended :
    (∀ l : List Hit, (postProcessHits l).length = min 9999 l.length) ∧
    (∀ l : List Hit, (postProcessHits l).length ≤ 9999) ∧
    (∀ l : List Hit, (postProcessHits l).map Hit.nr = List.range' 1 (min 9999 l.length)) ∧
    (∀ l : List Hit, ∀ r ∈ (postProcessHits l).map Hit.nr, 1 ≤ r ∧ r ≤ 9999) ∧
    (∀ l : List Hit, ∀ a ∈ (sortHits l).take 9999, ∀ b ∈ (sortHits l).drop 9999,
      hitDescOrder a b) := by
  have hlen : ∀ l : List Hit, (postProcessHits l).length = min 9999 l.length := by
    intro l
    rw [postProcessHits, assignRanks_length, List.length_take, sortHits,
      List.length_mergeSort]
  have hmap : ∀ l : List Hit,
      (postProcessHits l).map Hit.nr = List.range' 1 (min 9999 l.length) := by
    intro l
    rw [postProcessHits, assignRanks_map_nr, List.length_take, sortHits,
      List.length_mergeSort]
  refine ⟨hlen, fun l => by rw [hlen]; omega, hmap, ?_, ?_⟩
  · intro l r hr
    rw [hmap, List.mem_range'_1] at hr
    omega
  · intro l a ha b hb
    have hs : (sortHits l).Pairwise (fun a b => hitLE a b = true) :=
      @List.sorted_mergeSort Hit hitLE
        (fun a b c => hitLE_trans a b c) (fun a b => hitLE_total a b) l
    rw [← List.take_append_drop 9999 (sortHits l), List.pairwise_append] at hs
    exact (hitLE_iff a b).mp (hs.2.2 a ha b hb)

/-- Witness for the amended C8: on a one-hit list the single printed rank is
1 and lies within bounds. -/
theorem hmmer_truncation_amended_witness :
    1 ≤ 1 ∧ 1 ≤ 9999 ∧ 1 ∈ (postProcessHits [blankHit]).map Hit.nr := by
  have hm : 1 ∈ (postProcessHits [blankHit]).map Hit.nr := by
    rw [hmmer_truncation_amended.2.2.1 [blankHit]]
    decide
  exact ⟨le_refl 1, (hmmer_truncation_amended.2.2.2.1 [blankHit] 1 hm).2, hm⟩

/-- Witness for C9 at the concrete all-dropped input: its parse collects two
sequences without error, and the general statement applies to it. -/
theorem insufficient_check_before_filter_witness :
    readStockholm stoExampleAllDropped =
      .ok (homologyFilter (parsedMSA stoExampleAllDropped).2) := by
  have hparse : parsedMSA stoExampleAllDropped =
      (false, [⟨"Q1".toList, "AAAAAAAAAA".toList, 0, 0⟩,
               ⟨"H1/1-10".toList, "CCCCCCCCCC".toList, 0, 10⟩]) := by decide
  exact insufficient_check_before_filter.1 stoExampleAllDropped (by decide) (by decide)
    (by rw [hparse]) (by rw [hparse]; decide)

end Xssp
